import Mathlib

/-!
Verification of the content-enrichment core of the Auto-post pipeline:
the filename parser (modules/filename_parser.py), the TMDB matcher/enricher
(modules/tmdb_client.py) and the poster renderer (modules/poster_generator.py).

Strings are modelled as lists of characters.  Python regular-expression
behaviour (leftmost match, alternation order, greedy quantifiers with
backtracking, word boundaries) is embedded by hand-written matchers that are
specialised to the concrete patterns appearing in the source.  The word class
of the patterns is modelled as ASCII alphanumerics plus underscore; likewise
case folding is ASCII.  The sources only match ASCII pattern text, so this
only diverges from CPython on exotic unicode inputs.
-/

namespace AutoPost

/-! ## Character classes (regex \d, \w, whitespace) and ASCII case folding -/

def isDigitC (c : Char) : Bool := '0' ≤ c && c ≤ '9'

def digitVal (c : Char) : Nat := c.toNat - '0'.toNat

/-- Model of the regex word class \w restricted to ASCII. -/
def isWordChar (c : Char) : Bool := c.isAlpha || isDigitC c || c = '_'

def isWordOpt : Option Char → Bool
  | none => false
  | some c => isWordChar c

/-- Word boundary \b between two adjacent positions (none = string edge). -/
def wordBoundary (a b : Option Char) : Bool := isWordOpt a != isWordOpt b

/-- ASCII lower-casing, as Python str.lower() on the ASCII range. -/
def lowerC (c : Char) : Char :=
  if 'A' ≤ c && c ≤ 'Z' then Char.ofNat (c.toNat + 32) else c

/-- ASCII upper-casing, as Python str.upper() on the ASCII range. -/
def upperC (c : Char) : Char :=
  if 'a' ≤ c && c ≤ 'z' then Char.ofNat (c.toNat - 32) else c

def lowerS (s : List Char) : List Char := s.map lowerC

/-! ## Matching a literal alternation \b(w1|w2|...)\b case-insensitively

Each alternative is stored lower-cased.  At a given position the
alternatives are tried in pattern order (Python alternation order); a match
additionally needs a word boundary on both sides, checked against the
character preceding the position (prev) and the first character after the
matched text. -/

/-- Does s start with the (lower-cased) literal alt, case-insensitively?
On success returns the consumed original characters and the remainder. -/
def splitCI : List Char → List Char → Option (List Char × List Char)
  | [], s => some ([], s)
  | _ :: _, [] => none
  | a :: as, c :: cs =>
    if a = lowerC c then
      match splitCI as cs with
      | some (m, rest) => some (c :: m, rest)
      | none => none
    else none

/-- Try the alternatives in order at the current position; boundary checks
on both sides.  Empty alternatives are rejected (none occur in the source
patterns). -/
def tryAlts (prev : Option Char) (alts : List (List Char)) (s : List Char) :
    Option (List Char × List Char) :=
  match alts with
  | [] => none
  | a :: more =>
    match splitCI a s with
    | some (m, rest) =>
      if m ≠ [] && wordBoundary prev m.head? && wordBoundary m.getLast? rest.head?
      then some (m, rest)
      else tryAlts prev more s
    | none => tryAlts prev more s

/-- First match of the alternation in the string (re.search): matched text. -/
def litSearch (prev : Option Char) (alts : List (List Char)) :
    List Char → Option (List Char)
  | [] => none
  | c :: cs =>
    match tryAlts prev alts (c :: cs) with
    | some (m, _) => some m
    | none => litSearch (some c) alts cs

/-- All non-overlapping matches left to right (re.finditer): matched texts.
A match consumes at least one character, so fuel = length of the input is
enough; the fuel makes the recursion structural. -/
def litFindAllF (alts : List (List Char)) : Nat → Option Char → List Char →
    List (List Char)
  | 0, _, _ => []
  | _ + 1, _, [] => []
  | fuel + 1, prev, c :: cs =>
    match tryAlts prev alts (c :: cs) with
    | some (m, rest) => m :: litFindAllF alts fuel m.getLast? rest
    | none => litFindAllF alts fuel (some c) cs

def litFindAll (prev : Option Char) (alts : List (List Char)) (s : List Char) :
    List (List Char) :=
  litFindAllF alts s.length prev s

/-- Replace every non-overlapping match by a single space (re.sub " "). -/
def litSubF (alts : List (List Char)) : Nat → Option Char → List Char → List Char
  | 0, _, s => s
  | _ + 1, _, [] => []
  | fuel + 1, prev, c :: cs =>
    match tryAlts prev alts (c :: cs) with
    | some (m, rest) => ' ' :: litSubF alts fuel m.getLast? rest
    | none => c :: litSubF alts fuel (some c) cs

def litSub (prev : Option Char) (alts : List (List Char)) (s : List Char) :
    List Char :=
  litSubF alts s.length prev s

/-! ## The www\.\S+ arm of the junk pattern

Greedy \S+ with backtracking: the final word boundary is tried at the
longest non-whitespace extent first, then shortened one character at a
time. -/

/-- Split off the maximal run of non-whitespace characters. -/
def takeNonWs : List Char → List Char × List Char
  | [] => ([], [])
  | c :: cs =>
    if c.isWhitespace then ([], c :: cs)
    else
      let p := takeNonWs cs
      (c :: p.1, p.2)

/-- Given the reversed greedy extent and the remainder, find the longest
nonempty initial segment whose last character forms a word boundary with
what follows (backtracking from longest to shortest). -/
def greedyBackRev : List Char → List Char → Option (List Char × List Char)
  | [], _ => none
  | c :: rp, r =>
    if wordBoundary (some c) r.head? then some ((c :: rp).reverse, r)
    else greedyBackRev rp (c :: r)

/-- Match www\.\S+ (with the surrounding word boundaries of the junk
pattern) at the current position. -/
def matchWWW (prev : Option Char) (s : List Char) : Option (List Char × List Char) :=
  match s with
  | w1 :: w2 :: w3 :: d :: t =>
    if lowerC w1 = 'w' && lowerC w2 = 'w' && lowerC w3 = 'w' && d = '.'
        && wordBoundary prev (some w1) then
      let p := takeNonWs t
      match greedyBackRev p.1.reverse p.2 with
      | some (q, r) => some (w1 :: w2 :: w3 :: d :: q, r)
      | none => none
    else none
  | _ => none

/-! ## The concrete tag patterns of filename_parser.py (lower-cased
alternatives, in pattern order) -/

def qualityAlts : List (List Char) :=
  ["480p", "720p", "1080p", "2160p", "4k"].map String.data

def ripAlts : List (List Char) :=
  ["hdrip", "web-dl", "webrip", "bluray", "bdrip", "dvdrip", "hdtv", "amzn",
   "nf", "dsnp", "sonyliv", "zee5", "hotstar"].map String.data

def codecAlts : List (List Char) :=
  ["x264", "x265", "h264", "h265", "hevc", "avc", "10bit", "hdr", "sdr",
   "dv", "dovi"].map String.data

def audioAlts : List (List Char) :=
  ["aac", "dd5.1", "ddp5.1", "dts", "ac3", "truehd", "atmos", "flac", "mp3",
   "2.0", "5.1", "7.1"].map String.data

def languageAlts : List (List Char) :=
  ["hindi", "tamil", "telugu", "malayalam", "kannada", "bengali", "english",
   "multi", "dual", "org", "uncut"].map String.data

def junkLits : List (List Char) :=
  ["download", "repack", "proper", "internal", "extended", "theatrical",
   "directors.cut", "criterion", "remux", "uhd", "sdr", "imax", "3d", "sbs",
   "hou", "dubbed", "subbed", "esub", "msub", "hardsub"].map String.data

/-- Junk pattern: the www arm first (alternation order), then the literal
alternatives. -/
def junkHere (prev : Option Char) (s : List Char) : Option (List Char × List Char) :=
  match matchWWW prev s with
  | some r => some r
  | none => tryAlts prev junkLits s

def junkSubF : Nat → Option Char → List Char → List Char
  | 0, _, s => s
  | _ + 1, _, [] => []
  | fuel + 1, prev, c :: cs =>
    match junkHere prev (c :: cs) with
    | some (m, rest) => ' ' :: junkSubF fuel m.getLast? rest
    | none => c :: junkSubF fuel (some c) cs

def junkSub (prev : Option Char) (s : List Char) : List Char :=
  junkSubF s.length prev s

/-! ## Series marker [Ss](\d{1,2})[Ee](\d{1,2})

The quantifier \d{1,2} is greedy with backtracking: two digits are
preferred, but if the following [Ee] then fails, one digit is retried. -/

/-- Parse the episode digits \d{1,2} (greedy; nothing follows them). -/
def matchEpDigits : List Char → Option Nat
  | [] => none
  | [d1] => if isDigitC d1 then some (digitVal d1) else none
  | d1 :: d2 :: _ =>
    if isDigitC d1 then
      if isDigitC d2 then some (10 * digitVal d1 + digitVal d2)
      else some (digitVal d1)
    else none

/-- Parse [Ee] then the episode digits. -/
def matchE : List Char → Option Nat
  | [] => none
  | c :: rest => if c = 'E' || c = 'e' then matchEpDigits rest else none

/-- Parse (\d{1,2})[Ee](\d{1,2}) with backtracking on the season digits. -/
def matchSE0 : List Char → Option (Nat × Nat)
  | [] => none
  | d1 :: rest =>
    if isDigitC d1 then
      match rest with
      | [] => none
      | d2 :: rest2 =>
        if isDigitC d2 then
          match matchE rest2 with
          | some ep => some (10 * digitVal d1 + digitVal d2, ep)
          | none =>
            match matchE rest with
            | some ep => some (digitVal d1, ep)
            | none => none
        else
          match matchE rest with
          | some ep => some (digitVal d1, ep)
          | none => none
    else none

/-- Try the series marker at the current position. -/
def seriesHere : List Char → Option (Nat × Nat)
  | [] => none
  | c :: rest => if c = 'S' || c = 's' then matchSE0 rest else none

/-- Leftmost series marker (re.search): start index, season, episode. -/
def seriesSearch : List Char → Option (Nat × Nat × Nat)
  | [] => none
  | c :: cs =>
    match seriesHere (c :: cs) with
    | some (se, ep) => some (0, se, ep)
    | none => (seriesSearch cs).map (fun t => (t.1 + 1, t.2))

/-! ## Year pattern \b(20[0-2]\d)\b

The pattern starts and ends with a digit (a word character), so the word
boundaries reduce to: the character before the match is not a word
character, and neither is the character after it.  The context is carried
as the wordness (Bool) of the preceding character. -/

/-- Try the year pattern at the current position; w is the wordness of the
preceding character (false at the string edge). -/
def yearHere (w : Bool) : List Char → Option Nat
  | c0 :: c1 :: c2 :: c3 :: rest =>
    if c0 = '2' && c1 = '0' && ('0' ≤ c2 && c2 ≤ '2') && isDigitC c3
        && !w && !isWordOpt rest.head?
    then some (2000 + 10 * digitVal c2 + digitVal c3)
    else none
  | _ => none

/-- Leftmost year match (re.search): start index and value. -/
def yearSearchAux (w : Bool) : List Char → Option (Nat × Nat)
  | [] => none
  | c :: cs =>
    match yearHere w (c :: cs) with
    | some y => some (0, y)
    | none => (yearSearchAux (isWordChar c) cs).map (fun p => (p.1 + 1, p.2))

def yearSearch (s : List Char) : Option (Nat × Nat) := yearSearchAux false s

/-- Replace every year match by a single space (re.sub " "); scanning
resumes after each match, whose last character is a digit (a word
character). -/
def yearSub (w : Bool) : List Char → List Char
  | c0 :: c1 :: c2 :: c3 :: rest =>
    if (yearHere w (c0 :: c1 :: c2 :: c3 :: rest)).isSome
    then ' ' :: yearSub true rest
    else c0 :: yearSub (isWordChar c0) (c1 :: c2 :: c3 :: rest)
  | s => s

/-! ## Title cleanup: separator collapsing, whitespace normalisation,
Python str.title() -/

def isSep (c : Char) : Bool := c = '.' || c = '_' || c = '-'

/-- Replace every run of separator characters [._-]+ by one space
(re.sub): a separator is emitted as a space only when it starts a run. -/
def sepCollapseAux (prevSep : Bool) : List Char → List Char
  | [] => []
  | c :: cs =>
    if isSep c then
      (if prevSep then [] else [' ']) ++ sepCollapseAux true cs
    else c :: sepCollapseAux false cs

def sepCollapse (s : List Char) : List Char := sepCollapseAux false s

/-- Model of Python " ".join(s.split()): drop leading/trailing whitespace
and collapse inner whitespace runs to a single space.  The state records
whether a word has been emitted and whether whitespace is pending. -/
def wsCollapseAux (started pending : Bool) : List Char → List Char
  | [] => []
  | c :: cs =>
    if c.isWhitespace then wsCollapseAux started true cs
    else if started && pending then ' ' :: c :: wsCollapseAux true false cs
    else c :: wsCollapseAux true false cs

def wsCollapse (s : List Char) : List Char := wsCollapseAux false false s

/-- The transform Python str.title() applies to one character, given
whether the previous character is a letter. -/
def titleT (prevAlpha : Bool) (c : Char) : Char :=
  if c.isAlpha then (if prevAlpha then lowerC c else upperC c) else c

/-- Python str.title(): a letter is upper-cased when the previous character
is not a letter, lower-cased otherwise; non-letters are kept. -/
def pyTitleAux (prevAlpha : Bool) : List Char → List Char
  | [] => []
  | c :: cs => titleT prevAlpha c :: pyTitleAux c.isAlpha cs

def pyTitle (s : List Char) : List Char := pyTitleAux false s

/-! ## Extension stripping \.(mkv|mp4|avi|mov|ts|m2ts|flv)$ -/

def extAlts : List (List Char) :=
  [".mkv", ".mp4", ".avi", ".mov", ".ts", ".m2ts", ".flv"].map String.data

/-- Strip a recognised trailing extension; returns the remaining name and
the lower-cased extension without the dot (the regex is anchored at the
end, and no two of the dotted suffixes can match simultaneously). -/
def stripExtension (s : List Char) : List Char × List Char :=
  match extAlts.find? (fun e => e.isSuffixOf (lowerS s)) with
  | some e => (s.take (s.length - e.length), e.drop 1)
  | none => (s, [])

/-- Deduplicate keeping the first occurrence.  (In the source the language
matches pass through a Python set, whose iteration order is unspecified;
the model fixes first-occurrence order.) -/
def dedupFirst (l : List String) : List String :=
  l.foldl (fun acc x => if x ∈ acc then acc else acc ++ [x]) []

/-! ## MediaMeta and parse (FilenameParser.parse / MediaMeta.to_dict) -/

/-- The record produced by FilenameParser.parse, mirroring the keys of
MediaMeta.to_dict() (note: display_quality is a property of the Python
dataclass and is not a key of the dict). -/
structure MediaMeta where
  raw_filename : String
  title : String := ""
  year : Option Nat := none
  season : Option Nat := none
  episode : Option Nat := none
  quality : String := ""
  rip_type : String := ""
  codec : String := ""
  audio : String := ""
  languages : List String := []
  media_type : String := "movie"
  extension : String := ""
deriving Repr, DecidableEq

/-- The display_quality property of the Python dataclass:
"quality | rip_type" keeping only the nonempty parts, or "Unknown". -/
def MediaMeta.display_quality (m : MediaMeta) : String :=
  let parts := (if m.quality ≠ "" then [m.quality] else []) ++
               (if m.rip_type ≠ "" then [m.rip_type] else [])
  if parts = [] then "Unknown" else String.intercalate " | " parts

/-- The title cleanup chain of FilenameParser.parse applied to the
truncated title span: substitute the seven patterns in source order
(quality, rip, codec, audio, language, junk, year), collapse separator
runs, normalise whitespace, title-case. -/
def cleanTitle (title0 : List Char) : List Char :=
  let t1 := litSub none qualityAlts title0
  let t2 := litSub none ripAlts t1
  let t3 := litSub none codecAlts t2
  let t4 := litSub none audioAlts t3
  let t5 := litSub none languageAlts t4
  let t6 := junkSub none t5
  let t7 := yearSub false t6
  let t8 := sepCollapse t7
  pyTitle (wsCollapse t8)

/-- FilenameParser.parse.  The title span is truncated at the series
marker if present, else at the year match; the tag patterns are searched
on the extension-stripped name; then the cleanup chain runs on the span. -/
def parse (filename : String) : MediaMeta :=
  let fe := stripExtension filename.data
  let f := fe.1
  let seriesM := seriesSearch f
  let yearM := yearSearch f
  let qM := litSearch none qualityAlts f
  let rM := litSearch none ripAlts f
  let cM := litSearch none codecAlts f
  let aM := litSearch none audioAlts f
  let langs := dedupFirst ((litFindAll none languageAlts f).map
    (fun m => String.mk (pyTitle m)))
  let title0 :=
    match seriesM with
    | some t => f.take t.1
    | none =>
      match yearM with
      | some p => f.take p.1
      | none => f
  { raw_filename := filename
    title := String.mk (cleanTitle title0)
    year := yearM.map (fun p => p.2)
    season := seriesM.map (fun t => t.2.1)
    episode := seriesM.map (fun t => t.2.2)
    quality := (qM.map (fun m => String.mk (m.map upperC))).getD ""
    rip_type := (rM.map String.mk).getD ""
    codec := (cM.map String.mk).getD ""
    audio := (aM.map String.mk).getD ""
    languages := langs
    media_type := if seriesM.isSome then "series" else "movie"
    extension := String.mk fe.2 }

/-! ## TMDB client (modules/tmdb_client.py)

A search result candidate is a JSON object; absent keys and JSON null both
come out of item.get(...) as None and are modelled as none.  Numbers are
modelled as rationals. -/

structure Candidate where
  id : Option Int := none
  title : Option String := none
  name : Option String := none
  release_date : Option String := none
  first_air_date : Option String := none
  popularity : Option ℚ := none
  vote_average : Option ℚ := none
  poster_path : Option String := none
  overview : Option String := none
deriving Repr, DecidableEq

/-- Python "a or b" for an optional string a: a when truthy (present and
nonempty), else b. -/
def orStr : Option String → String → String
  | some s, d => if s = "" then d else s
  | none, d => d

def strLower (s : String) : String := String.mk (lowerS s.data)

/-- Does b start with a? (modelling str.startswith). -/
def startsList : List Char → List Char → Bool
  | [], _ => true
  | _ :: _, [] => false
  | a :: as, b :: bs => a = b && startsList as bs

/-- Is a a contiguous substring of b? (modelling Python "a in b"). -/
def containsList (a b : List Char) : Bool :=
  match b with
  | [] => a.isEmpty
  | _ :: bs => startsList a b || containsList a bs

/-- Python "item.get(\"release_date\") or item.get(\"first_air_date\") or \"\"". -/
def relDate (item : Candidate) : String :=
  orStr item.release_date (orStr item.first_air_date "")

/-- Python truthiness of the optional year argument. -/
def yearTruthy : Option Int → Bool
  | none => false
  | some y => y ≠ 0

/-- The score closure of TMDBClient._pick_best: +10 exact case-insensitive
title match, else +5 mutual substring, +3 matching year prefix of the
release date, plus popularity/1000. -/
def score (titleLc : String) (year : Option Int) (item : Candidate) : ℚ :=
  let candidate := strLower (orStr item.title (orStr item.name ""))
  let base : ℚ :=
    if candidate = titleLc then 10
    else if containsList titleLc.data candidate.data
         || containsList candidate.data titleLc.data then 5
    else 0
  let withYear : ℚ := base +
    (if yearTruthy year
        && startsList (toString (year.getD 0)).data (relDate item).data
     then 3 else 0)
  withYear + (item.popularity.getD 0) / 1000

/-- Python max(results, key=score): the first element attaining the
maximal key (later elements replace the current best only when strictly
greater). -/
def maxByKeyFirst (f : Candidate → ℚ) (x : Candidate) : List Candidate → Candidate
  | [] => x
  | y :: ys => if f y > f x then maxByKeyFirst f y ys else maxByKeyFirst f x ys

/-- TMDBClient._pick_best.  Python max() raises on an empty sequence; the
source only calls it with a nonempty result list, modelled by the none
branch. -/
def pickBest (results : List Candidate) (title : String) (year : Option Int) :
    Option Candidate :=
  match results with
  | [] => none
  | x :: xs => some (maxByKeyFirst (score (strLower title) year) x xs)

/-- Python int(str): optional surrounding whitespace, optional sign, one
or more digits; anything else raises (modelled as none).  (Underscore
separators and non-ASCII digits are not modelled.) -/
def digitsVal : List Char → Option Nat
  | [] => none
  | ds =>
    if ds.all isDigitC then
      some (ds.foldl (fun n c => 10 * n + digitVal c) 0)
    else none

def pyInt (s : List Char) : Option Int :=
  let t := ((s.dropWhile Char.isWhitespace).reverse.dropWhile
    Char.isWhitespace).reverse
  match t with
  | '+' :: ds => (digitsVal ds).map (fun n => (n : Int))
  | '-' :: ds => (digitsVal ds).map (fun n => -(n : Int))
  | ds => (digitsVal ds).map (fun n => (n : Int))

/-- Python round() ties-to-even on rationals. -/
def roundHalfEven (q : ℚ) : Int :=
  let f := Rat.floor q
  let r := q - f
  if r < 1/2 then f
  else if 1/2 < r then f + 1
  else if Even f then f else f + 1

/-- Python round(x, 1). -/
def round1 (q : ℚ) : ℚ := (roundHalfEven (q * 10) : ℚ) / 10

/-- The enriched metadata dict built by TMDBClient._enrich. -/
structure Enriched where
  tmdb_id : Option Int := none
  title : String := ""
  overview : String := ""
  release_year : Option Int := none
  poster_url : Option String := none
  local_poster_path : Option String := none
  vote_average : ℚ := 0
  media_type : String := ""
deriving Repr, DecidableEq

def TMDB_IMAGE_BASE : String := "https://image.tmdb.org/t/p/original"

/-- Config.POSTER_OUTPUT_DIR, the cache directory of _download_poster
(the renderer later writes its output to the same directory, OUT_DIR
below). -/
def POSTER_OUTPUT_DIR : String := "posters"

/-- Filesystem and network outcomes met by a run of
TMDBClient._download_poster: whether os.makedirs on
Config.POSTER_OUTPUT_DIR succeeds (it raises OSError otherwise, and that
call sits before the try/except of the function, so the OSError is not
caught there), whether the destination file is already cached on disk,
and whether the download inside the try block succeeds. -/
structure DownloadEnv where
  mkdirOk : Bool
  cached : Bool
  fetchOk : Bool
deriving Repr, DecidableEq

/-- TMDBClient._download_poster.  os.makedirs runs first and its OSError
propagates out of the function (only the download itself is inside the
try/except); then the destination path raw_<tmdb_id>.jpg under the output
directory is returned directly on a cache hit, returned after a
successful download, and a caught download failure yields None. -/
def download_poster (env : DownloadEnv) (url : String) (tmdbId : Int) :
    Except String (Option String) :=
  if env.mkdirOk then
    let dest := POSTER_OUTPUT_DIR ++ "/raw_" ++ toString tmdbId ++ ".jpg"
    if env.cached then Except.ok (some dest)
    else if env.fetchOk then Except.ok (some dest)
    else Except.ok none
  else Except.error "OSError: cannot create output directory"

/-- The truthy poster_path of a candidate (Python evaluates
`if poster_path_remote:` so the empty string counts as absent). -/
def posterRemote (item : Candidate) : Option String :=
  match item.poster_path with
  | some p => if p = "" then none else some p
  | none => none

/-- TMDBClient._enrich.  When the candidate references artwork the poster
download runs first, and its uncaught raise (the os.makedirs OSError of
_download_poster) propagates; afterwards int(release_date[:4]) raises for
a nonempty date whose first four characters are not an integer literal.
Neither exception is caught anywhere in search, hence the Except result. -/
def enrich (item : Candidate) (mediaType : String) (env : DownloadEnv) :
    Except String Enriched :=
  match (match posterRemote item with
         | some p => download_poster env (TMDB_IMAGE_BASE ++ p) (item.id.getD 0)
         | none => Except.ok none) with
  | Except.error e => Except.error e
  | Except.ok localPoster =>
    let releaseDate := relDate item
    match (if releaseDate = "" then Except.ok none
           else
             match pyInt (releaseDate.data.take 4) with
             | some n => Except.ok (some n)
             | none => Except.error "ValueError: invalid literal for int()") with
    | Except.error e => Except.error e
    | Except.ok ry =>
      Except.ok
        { tmdb_id := item.id
          title := orStr item.title (orStr item.name "")
          overview := item.overview.getD ""
          release_year := ry
          poster_url := (posterRemote item).map (fun p => TMDB_IMAGE_BASE ++ p)
          local_poster_path := localPoster
          vote_average := round1 (item.vote_average.getD 0)
          media_type := mediaType }

/-- Outcome of the HTTP request inside the try block of search: either
an exception (caught there) or a parsed JSON result list (data.get
("results", [])). -/
inductive SearchResponse where
  | netFail : SearchResponse
  | ok : List Candidate → SearchResponse
deriving Repr, DecidableEq

/-- TMDBClient.search.  The try/except only wraps the request and JSON
parsing; an empty result list returns the no-match marker {} (modelled as
Except.ok none); _pick_best and _enrich (and hence _download_poster) run
outside the try block. -/
def search (title : String) (year : Option Int) (mediaType : String)
    (resp : SearchResponse) (env : DownloadEnv) : Except String (Option Enriched) :=
  match resp with
  | SearchResponse.netFail => Except.ok none
  | SearchResponse.ok results =>
    match results with
    | [] => Except.ok none
    | x :: xs =>
      (enrich (maxByKeyFirst (score (strLower title) year) x xs) mediaType env).map some

/-! ## Poster renderer (modules/poster_generator.py)

Images are modelled by their dimensions; the drawing steps (gradient,
text) preserve dimensions and cannot fail in the model.  The modelled
failure points of the try block of create_poster are opening an
unreadable artwork file, formatting a missing episode number, and saving
the output. -/

def TARGET_W : Nat := 1080

def MIN_H : Nat := 1600

def FALLBACK_POSTER : String := "assets/fallback.jpg"

def OUT_DIR : String := "posters"

def TITLE_FONT_MAX : Nat := 80

def TITLE_FONT_MIN : Nat := 40

/-- State of a path on the filesystem, as seen by os.path.exists and
Image.open: missing, readable image with natural size, or unreadable. -/
inductive FileState where
  | absent
  | readable (w h : Nat)
  | unreadable
deriving Repr, DecidableEq

/-- PosterGenerator._open_and_resize: scale to TARGET_W preserving aspect
(int truncation), enforcing MIN_H. -/
def resizeDims (w h : Nat) : Nat × Nat :=
  (TARGET_W, max (h * TARGET_W / w) MIN_H)

def openAndResize (fs : String → FileState) (p : String) : Except String (Nat × Nat) :=
  match fs p with
  | FileState.readable w h =>
    if 0 < w then Except.ok (resizeDims w h) else Except.error "ZeroDivisionError"
  | _ => Except.error "IOError: cannot open image"

/-- The candidate sizes of range(max_size, min_size - 1, -2). -/
def fontSizes : List Nat :=
  (List.range ((TITLE_FONT_MAX - TITLE_FONT_MIN) / 2 + 1)).map
    (fun k => TITLE_FONT_MAX - 2 * k)

/-- PosterGenerator._fit_font: first (largest) candidate size whose
measured text width fits within maxWidth, else the minimum size.  The
glyph bounding-box width is abstracted as the measure argument. -/
def fitFont (measure : String → Nat → Nat) (text : String) (maxWidth : Nat) : Nat :=
  match fontSizes.find? (fun size => measure text size ≤ maxWidth) with
  | some s => s
  | none => TITLE_FONT_MIN

/-- The star-rating fragment of _draw_text_overlay: rating is
tmdb.get("vote_average", "") and the fragment is empty when it is falsy.
(The exact decimal formatting of the rating is abstracted by toString.) -/
def starText (tmdb : Option Enriched) : String :=
  match tmdb with
  | none => ""
  | some e => if e.vote_average = 0 then "" else "★ " ++ toString e.vote_average

def tmdbYear : Option Enriched → Option Int
  | none => none
  | some e =>
    match e.release_year with
    | some r => if r ≠ 0 then some r else none
    | none => none

/-- Python "meta.get(\"year\") or (tmdb.get(\"release_year\") or \"\")",
folded with the truthiness filter of the parts comprehension. -/
def yearPart (meta : MediaMeta) (tmdb : Option Enriched) : Option Int :=
  match meta.year with
  | some y => if (y : Int) ≠ 0 then some (y : Int) else tmdbYear tmdb
  | none => tmdbYear tmdb

/-- The meta_parts list of _draw_text_overlay:
[str(p) for p in [year, quality, star] if p].  The quality item is
meta.get("display_quality") or meta.get("quality", ""); the meta dict is
MediaMeta.to_dict(), which has no "display_quality" key (display_quality
is a dataclass property), so the first lookup is always None and the item
reduces to the bare quality tag. -/
def metaParts (meta : MediaMeta) (tmdb : Option Enriched) : List String :=
  (match yearPart meta tmdb with
   | some y => [toString y]
   | none => [])
  ++ (if meta.quality ≠ "" then [meta.quality] else [])
  ++ (let st := starText tmdb; if st ≠ "" then [st] else [])

/-- The rendered bottom metadata line: parts joined with the separator. -/
def metaLine (meta : MediaMeta) (tmdb : Option Enriched) : String :=
  String.intercalate "  •  " (metaParts meta tmdb)

/-- Python f"{n:02d}" for a natural number. -/
def pad2 (n : Nat) : String := if n < 10 then "0" ++ toString n else toString n

/-- Python title.replace(" ", "_").replace("/", "-"). -/
def sanitizeTitle (t : String) : String :=
  String.mk (t.data.map (fun c => if c = ' ' then '_' else if c = '/' then '-' else c))

/-- PosterGenerator._output_path.  The season/episode suffix is emitted
whenever season is not None; a present season with an absent episode
would make the f-string raise (inside the try block of create_poster). -/
def outputPathE (meta : MediaMeta) : Except String String :=
  let safe := sanitizeTitle meta.title
  match meta.season with
  | none => Except.ok (OUT_DIR ++ "/poster_" ++ safe ++ ".jpg")
  | some s =>
    match meta.episode with
    | some e =>
      Except.ok (OUT_DIR ++ "/poster_" ++ safe ++ "_S" ++ pad2 s ++ "E" ++ pad2 e ++ ".jpg")
    | none => Except.error "TypeError: unsupported format spec for None"

/-- The try block of PosterGenerator.create_poster: background from the
local artwork when it exists (else the placeholder canvas of size
TARGET_W by MIN_H), gradient and text overlay (dimension-preserving),
then save. -/
def composePoster (meta : MediaMeta) (tmdb : Option Enriched)
    (fs : String → FileState) (saveOk : Bool) : Except String String := do
  let localRaw : Option String :=
    match tmdb with
    | some e => e.local_poster_path
    | none => none
  let _canvas ←
    match localRaw with
    | some p =>
      if p ≠ "" ∧ fs p ≠ FileState.absent then openAndResize fs p
      else pure (TARGET_W, MIN_H)
    | none => pure (TARGET_W, MIN_H)
  let out ← outputPathE meta
  if saveOk then pure out else Except.error "OSError: save failed"

/-- PosterGenerator.create_poster: any exception inside the try block is
caught and replaced by the fixed fallback asset path. -/
def create_poster (meta : MediaMeta) (tmdb : Option Enriched)
    (fs : String → FileState) (saveOk : Bool) : String :=
  match composePoster meta tmdb fs saveOk with
  | Except.ok p => p
  | Except.error _ => FALLBACK_POSTER

/-! ## Specification predicates -/

/-- Shape of the year pattern 20[0-2]\d. -/
def yearShape (y : List Char) : Prop :=
  ∃ c2 c3, y = ['2', '0', c2, c3] ∧ '0' ≤ c2 ∧ c2 ≤ '2' ∧ isDigitC c3 = true

/-- A bare (word-boundary delimited) occurrence of the year pattern in s,
where w is the wordness of the character preceding s. -/
def BareIn (w : Bool) (s : List Char) : Prop :=
  ∃ u y v, s = u ++ y ++ v ∧ yearShape y ∧
    (match u.getLast? with
     | none => w = false
     | some d => isWordChar d = false) ∧
    isWordOpt v.head? = false

/-- An SxxEyy-style marker: [Ss], one or two digits, [Ee], one or two
digits. -/
def MarkerShape (m : List Char) : Prop :=
  ∃ sc ds ec es, m = sc :: ds ++ ec :: es ∧
    (sc = 'S' ∨ sc = 's') ∧ (ec = 'E' ∨ ec = 'e') ∧
    ds ≠ [] ∧ ds.length ≤ 2 ∧ (∀ c ∈ ds, isDigitC c = true) ∧
    es ≠ [] ∧ es.length ≤ 2 ∧ (∀ c ∈ es, isDigitC c = true)

/-- The string contains an SxxEyy-style marker somewhere. -/
def ContainsMarker (s : List Char) : Prop :=
  ∃ u m v, s = u ++ m ++ v ∧ MarkerShape m

/-- Scanner for two fixed adjacent characters. -/
def twoAdj (a b : Char) : List Char → Bool
  | [] => false
  | [_] => false
  | x :: y :: rest => (x = a && y = b) || twoAdj a b (y :: rest)

/-- Does the string contain a four-character substring of year shape
(2000 to 2029), bare or not? -/
def hasYearLike : List Char → Bool
  | [] => false
  | c0 :: cs =>
    (match c0 :: cs with
     | c0 :: c1 :: c2 :: c3 :: _ =>
       c0 = '2' && c1 = '0' && ('0' ≤ c2 && c2 ≤ '2') && isDigitC c3
     | _ => false) || hasYearLike cs

/-- All candidates whose effective release-date string is empty or starts
with a parseable four-character integer; on such a response _enrich
cannot raise. -/
def dateOk (c : Candidate) : Prop :=
  relDate c = "" ∨ (pyInt ((relDate c).data.take 4)).isSome = true

/-! ## Concrete inputs used by the witnesses -/

/-- First candidate of the matcher example of the spec. -/
def leo1 : Candidate :=
  { title := some "Leo", release_date := some "2023-10-19",
    popularity := some 10, vote_average := some (76/10), id := some 1 }

/-- Second candidate of the matcher example of the spec. -/
def leo2 : Candidate :=
  { title := some "Leo 2", release_date := some "2023-01-01",
    popularity := some 500, vote_average := some (70/10), id := some 2 }

/-- A candidate whose release-date string cannot be parsed by int(). -/
def badDateCand : Candidate :=
  { title := some "X", release_date := some "soon", popularity := some 1 }

/-- A candidate carrying artwork and a parseable date, used to exhibit the
uncaught os.makedirs OSError of _download_poster. -/
def posterCand : Candidate :=
  { title := some "X", release_date := some "2023-01-01",
    poster_path := some "/p.jpg", popularity := some 1, id := some 7 }

/-- Download environment in which every filesystem step succeeds. -/
def okEnv : DownloadEnv :=
  { mkdirOk := true, cached := false, fetchOk := true }

/-- Download environment in which os.makedirs raises OSError. -/
def badEnv : DownloadEnv :=
  { mkdirOk := false, cached := false, fetchOk := false }

end AutoPost

namespace AutoPost

/-! # Theorems

## Character facts -/

theorem charLe_toNat {a b : Char} : a ≤ b ↔ a.toNat ≤ b.toNat := Iff.rfl

theorem isDigitC_toNat {c : Char} : isDigitC c = true ↔ 48 ≤ c.toNat ∧ c.toNat ≤ 57 := by
  simp [isDigitC, charLe_toNat]

theorem lowerC_digit {c : Char} (h : isDigitC c = true) : lowerC c = c := by
  rw [isDigitC_toNat] at h
  unfold lowerC
  rw [if_neg]
  simp only [charLe_toNat, Bool.and_eq_true, decide_eq_true_eq,
    show ('A' : Char).toNat = 65 from rfl, show ('Z' : Char).toNat = 90 from rfl]
  omega

theorem digit_of_c2_range {c : Char} (h1 : '0' ≤ c) (h2 : c ≤ '2') : isDigitC c = true := by
  rw [charLe_toNat] at h1 h2
  rw [isDigitC_toNat]
  have h0 : ('0' : Char).toNat = 48 := rfl
  have h2n : ('2' : Char).toNat = 50 := rfl
  omega

theorem digit_ne_dot {c : Char} (h : isDigitC c = true) : c ≠ '.' := by
  rw [isDigitC_toNat] at h
  intro he
  subst he
  simp at h

theorem digit_toNat_ne_dot {c : Char} (h : isDigitC c = true) : lowerC c ≠ '.' := by
  rw [lowerC_digit h]
  exact digit_ne_dot h

end AutoPost

namespace AutoPost

/-! ## Series marker: soundness and completeness of the scanner -/

theorem matchEpDigits_some {l : List Char} (h : (matchEpDigits l).isSome) :
    ∃ es v, l = es ++ v ∧ es ≠ [] ∧ es.length ≤ 2 ∧ ∀ c ∈ es, isDigitC c = true := by
  match l with
  | [] => simp [matchEpDigits] at h
  | [d1] =>
    by_cases hd : isDigitC d1 = true
    · exact ⟨[d1], [], by simp, by simp, by simp, by simpa using hd⟩
    · simp [matchEpDigits, hd] at h
  | d1 :: d2 :: t =>
    by_cases hd1 : isDigitC d1 = true
    · by_cases hd2 : isDigitC d2 = true
      · refine ⟨[d1, d2], t, by simp, by simp, by simp, ?_⟩
        intro c hc
        simp only [List.mem_cons, List.not_mem_nil, or_false] at hc
        rcases hc with h | h
        · rw [h]; exact hd1
        · rw [h]; exact hd2
      · refine ⟨[d1], d2 :: t, by simp, by simp, by simp, ?_⟩
        intro c hc
        simp only [List.mem_singleton] at hc
        rw [hc]; exact hd1
    · simp [matchEpDigits, hd1] at h

theorem matchEpDigits_of_shape {es v : List Char} (hne : es ≠ [])
    (hlen : es.length ≤ 2) (hd : ∀ c ∈ es, isDigitC c = true) :
    (matchEpDigits (es ++ v)).isSome := by
  match es with
  | [] => exact absurd rfl hne
  | [d1] =>
    have h1 : isDigitC d1 = true := hd d1 (by simp)
    match v with
    | [] => simp [matchEpDigits, h1]
    | x :: xs =>
      simp only [List.cons_append, List.nil_append, matchEpDigits, h1, if_true]
      split <;> simp
  | [d1, d2] =>
    have h1 : isDigitC d1 = true := hd d1 (by simp)
    have h2 : isDigitC d2 = true := hd d2 (by simp)
    simp [matchEpDigits, h1, h2]
  | d1 :: d2 :: d3 :: t => simp at hlen

theorem matchE_some {l : List Char} (h : (matchE l).isSome) :
    ∃ ec es v, l = ec :: es ++ v ∧ (ec = 'E' ∨ ec = 'e') ∧ es ≠ [] ∧
      es.length ≤ 2 ∧ ∀ c ∈ es, isDigitC c = true := by
  match l with
  | [] => simp [matchE] at h
  | c :: t =>
    by_cases hc : (c = 'E' || c = 'e') = true
    · have ht : (matchEpDigits t).isSome := by
        simpa [matchE, hc] using h
      obtain ⟨es, v, hteq, h1, h2, h3⟩ := matchEpDigits_some ht
      exact ⟨c, es, v, by simp [hteq], by simpa using hc, h1, h2, h3⟩
    · simp [matchE, hc] at h

theorem matchE_of_shape {ec : Char} {es v : List Char} (hec : ec = 'E' ∨ ec = 'e')
    (hne : es ≠ []) (hlen : es.length ≤ 2) (hd : ∀ c ∈ es, isDigitC c = true) :
    (matchE (ec :: es ++ v)).isSome := by
  have hc : (ec = 'E' || ec = 'e') = true := by simpa using hec
  simpa [matchE, hc] using matchEpDigits_of_shape hne hlen hd

theorem matchSE0_some {l : List Char} (h : (matchSE0 l).isSome) :
    ∃ ds ec es v, l = ds ++ ec :: es ++ v ∧ ds ≠ [] ∧ ds.length ≤ 2 ∧
      (∀ c ∈ ds, isDigitC c = true) ∧ (ec = 'E' ∨ ec = 'e') ∧ es ≠ [] ∧
      es.length ≤ 2 ∧ ∀ c ∈ es, isDigitC c = true := by
  match l with
  | [] => simp [matchSE0] at h
  | d1 :: rest =>
    by_cases hd1 : isDigitC d1 = true
    · match rest with
      | [] => simp [matchSE0, hd1] at h
      | d2 :: rest2 =>
        by_cases hd2 : isDigitC d2 = true
        · by_cases hm2 : (matchE rest2).isSome
          · obtain ⟨ec, es, v, heq, q1, q2, q3, q4⟩ := matchE_some hm2
            refine ⟨[d1, d2], ec, es, v, by simp [heq], by simp, by simp, ?_, q1, q2, q3, q4⟩
            intro c hc
            simp only [List.mem_cons, List.not_mem_nil, or_false] at hc
            rcases hc with hcc | hcc
            · rw [hcc]; exact hd1
            · rw [hcc]; exact hd2
          · by_cases hm1 : (matchE (d2 :: rest2)).isSome
            · obtain ⟨ec, es, v, heq, q1, q2, q3, q4⟩ := matchE_some hm1
              refine ⟨[d1], ec, es, v, by simp [heq], by simp, by simp, ?_, q1, q2, q3, q4⟩
              intro c hc
              simp only [List.mem_singleton] at hc
              rw [hc]; exact hd1
            · exfalso
              rw [Option.not_isSome_iff_eq_none] at hm2 hm1
              simp [matchSE0, hd1, hd2, hm2, hm1] at h
        · by_cases hm1 : (matchE (d2 :: rest2)).isSome
          · obtain ⟨ec, es, v, heq, q1, q2, q3, q4⟩ := matchE_some hm1
            refine ⟨[d1], ec, es, v, by simp [heq], by simp, by simp, ?_, q1, q2, q3, q4⟩
            intro c hc
            simp only [List.mem_singleton] at hc
            rw [hc]; exact hd1
          · exfalso
            rw [Option.not_isSome_iff_eq_none] at hm1
            simp [matchSE0, hd1, hd2, hm1] at h
    · simp [matchSE0, hd1] at h

theorem matchSE0_of_shape {ds : List Char} {ec : Char} {es v : List Char}
    (hds : ds ≠ []) (hdl : ds.length ≤ 2) (hdd : ∀ c ∈ ds, isDigitC c = true)
    (hec : ec = 'E' ∨ ec = 'e') (hes : es ≠ []) (hel : es.length ≤ 2)
    (hed : ∀ c ∈ es, isDigitC c = true) :
    (matchSE0 (ds ++ ec :: es ++ v)).isSome := by
  have hecd : isDigitC ec = false := by
    rcases hec with h | h <;> rw [h] <;> decide
  match ds with
  | [] => exact absurd rfl hds
  | [d1] =>
    have h1 : isDigitC d1 = true := hdd d1 (by simp)
    have hme : (matchE (ec :: es ++ v)).isSome := matchE_of_shape hec hes hel hed
    rw [Option.isSome_iff_exists] at hme
    obtain ⟨ep, hep⟩ := hme
    simp only [List.cons_append, List.singleton_append, List.nil_append] at hep ⊢
    simp only [matchSE0, h1, hecd, if_true, Bool.false_eq_true, if_false]
    rw [hep]
    simp
  | [d1, d2] =>
    have h1 : isDigitC d1 = true := hdd d1 (by simp)
    have h2 : isDigitC d2 = true := hdd d2 (by simp)
    have hme : (matchE (ec :: es ++ v)).isSome := matchE_of_shape hec hes hel hed
    rw [Option.isSome_iff_exists] at hme
    obtain ⟨ep, hep⟩ := hme
    simp only [List.cons_append, List.singleton_append, List.nil_append] at hep ⊢
    simp only [matchSE0, h1, h2, if_true]
    rw [hep]
    simp
  | d1 :: d2 :: d3 :: t => simp at hdl

theorem seriesHere_some {s : List Char} (h : (seriesHere s).isSome) :
    ∃ m v, s = m ++ v ∧ MarkerShape m := by
  match s with
  | [] => simp [seriesHere] at h
  | c :: rest =>
    by_cases hc : (c = 'S' || c = 's') = true
    · have hm : (matchSE0 rest).isSome := by simpa [seriesHere, hc] using h
      obtain ⟨ds, ec, es, v, heq, q1, q2, q3, q4, q5, q6, q7⟩ := matchSE0_some hm
      refine ⟨c :: ds ++ ec :: es, v, ?_, c, ds, ec, es, rfl, by simpa using hc,
        q4, q1, q2, q3, q5, q6, q7⟩
      simp [heq]
    · simp [seriesHere, hc] at h

theorem seriesHere_of_shape {m v : List Char} (hm : MarkerShape m) :
    (seriesHere (m ++ v)).isSome := by
  obtain ⟨sc, ds, ec, es, hshape, hsc, hec, q1, q2, q3, q4, q5, q6⟩ := hm
  subst hshape
  have hcs : (sc = 'S' || sc = 's') = true := by simpa using hsc
  have : (matchSE0 (ds ++ ec :: es ++ v)).isSome :=
    matchSE0_of_shape q1 q2 q3 hec q4 q5 q6
  rw [Option.isSome_iff_exists] at this
  obtain ⟨p, hp⟩ := this
  simp only [List.cons_append, List.append_assoc, List.cons_append] at hp ⊢
  simp [seriesHere, hcs, hp]

theorem seriesSearch_sound {s : List Char} (h : (seriesSearch s).isSome) :
    ContainsMarker s := by
  induction s with
  | nil => simp [seriesSearch] at h
  | cons c cs ih =>
    by_cases hh : (seriesHere (c :: cs)).isSome
    · obtain ⟨m, v, heq, hms⟩ := seriesHere_some hh
      exact ⟨[], m, v, by simpa using heq, hms⟩
    · rw [Option.not_isSome_iff_eq_none] at hh
      have hrec : (seriesSearch cs).isSome := by
        by_contra hn
        rw [Option.not_isSome_iff_eq_none] at hn
        simp [seriesSearch, hh, hn] at h
      obtain ⟨u, m, v, heq, hms⟩ := ih hrec
      exact ⟨c :: u, m, v, by simp [heq], hms⟩

theorem seriesSearch_complete {s : List Char} (h : ContainsMarker s) :
    (seriesSearch s).isSome := by
  induction s with
  | nil =>
    obtain ⟨u, m, v, heq, sc, ds, ec, es, hshape, _⟩ := h
    rw [hshape] at heq
    simp at heq
  | cons c cs ih =>
    obtain ⟨u, m, v, heq, hms⟩ := h
    match u with
    | [] =>
      simp only [List.nil_append] at heq
      have : (seriesHere (c :: cs)).isSome := by
        rw [heq]; exact seriesHere_of_shape hms
      rw [Option.isSome_iff_exists] at this
      obtain ⟨⟨se, ep⟩, hp⟩ := this
      simp [seriesSearch, hp]
    | c0 :: u2 =>
      simp only [List.cons_append] at heq
      injection heq with hh1 hh2
      have hcs : ContainsMarker cs := ⟨u2, m, v, hh2, hms⟩
      have := ih hcs
      rw [Option.isSome_iff_exists] at this
      obtain ⟨t, ht⟩ := this
      by_cases hh : (seriesHere (c :: cs)).isSome
      · rw [Option.isSome_iff_exists] at hh
        obtain ⟨⟨se, ep⟩, hp⟩ := hh
        simp [seriesSearch, hp]
      · rw [Option.not_isSome_iff_eq_none] at hh
        simp [seriesSearch, hh, ht]

instance (s : List Char) : Decidable (ContainsMarker s) :=
  decidable_of_iff ((seriesSearch s).isSome = true)
    ⟨fun h => seriesSearch_sound h, fun h => seriesSearch_complete h⟩

end AutoPost

namespace AutoPost

/-! ## Year pattern: soundness and completeness of the scanner -/

theorem yearHere_some {w : Bool} {s : List Char} (h : (yearHere w s).isSome) :
    ∃ c2 c3 v, s = '2' :: '0' :: c2 :: c3 :: v ∧ '0' ≤ c2 ∧ c2 ≤ '2' ∧
      isDigitC c3 = true ∧ w = false ∧ isWordOpt v.head? = false := by
  match s with
  | [] => simp [yearHere] at h
  | [_] => simp [yearHere] at h
  | [_, _] => simp [yearHere] at h
  | [_, _, _] => simp [yearHere] at h
  | c0 :: c1 :: c2 :: c3 :: v =>
    by_cases hc : (c0 = '2' && c1 = '0' && ('0' ≤ c2 && c2 ≤ '2') && isDigitC c3
        && !w && !isWordOpt v.head?) = true
    · simp only [Bool.and_eq_true, Bool.not_eq_true', decide_eq_true_eq] at hc
      obtain ⟨⟨⟨⟨⟨h0, h1⟩, h2a, h2b⟩, h3⟩, hw⟩, hv⟩ := hc
      exact ⟨c2, c3, v, by rw [h0, h1], h2a, h2b, h3, hw, hv⟩
    · simp [yearHere, hc] at h

theorem yearHere_isSome_of {w : Bool} {c2 c3 : Char} {v : List Char}
    (h2a : '0' ≤ c2) (h2b : c2 ≤ '2') (h3 : isDigitC c3 = true) (hw : w = false)
    (hv : isWordOpt v.head? = false) :
    (yearHere w ('2' :: '0' :: c2 :: c3 :: v)).isSome := by
  simp [yearHere, h2a, h2b, h3, hw, hv]

theorem yearSearchAux_sound {w : Bool} {s : List Char}
    (h : (yearSearchAux w s).isSome) : BareIn w s := by
  induction s generalizing w with
  | nil => simp [yearSearchAux] at h
  | cons c cs ih =>
    by_cases hh : (yearHere w (c :: cs)).isSome
    · obtain ⟨c2, c3, v, heq, h2a, h2b, h3, hw, hv⟩ := yearHere_some hh
      exact ⟨[], ['2', '0', c2, c3], v, by simpa using heq,
        ⟨c2, c3, rfl, h2a, h2b, h3⟩, by simpa using hw, hv⟩
    · rw [Option.not_isSome_iff_eq_none] at hh
      have hrec : (yearSearchAux (isWordChar c) cs).isSome := by
        by_contra hn
        rw [Option.not_isSome_iff_eq_none] at hn
        simp [yearSearchAux, hh, hn] at h
      obtain ⟨u, y, v, heq, hy, hl, hr⟩ := ih hrec
      refine ⟨c :: u, y, v, by simp [heq], hy, ?_, hr⟩
      match u, hl with
      | [], hl => simpa using hl
      | x :: u2, hl => simpa [List.getLast?_cons_cons] using hl

theorem yearSearchAux_complete {w : Bool} {s : List Char} (h : BareIn w s) :
    (yearSearchAux w s).isSome := by
  induction s generalizing w with
  | nil =>
    obtain ⟨u, y, v, heq, ⟨c2, c3, hy, _⟩, _⟩ := h
    rw [hy] at heq
    simp at heq
  | cons c cs ih =>
    obtain ⟨u, y, v, heq, hy, hl, hr⟩ := h
    match u with
    | [] =>
      obtain ⟨c2, c3, hy2, h2a, h2b, h3⟩ := hy
      subst hy2
      simp only [List.nil_append, List.cons_append] at heq
      have hw : w = false := by simpa using hl
      injection heq with e0 heq1
      subst e0
      have hsome : (yearHere w ('2' :: cs)).isSome := by
        rw [heq1]
        exact yearHere_isSome_of h2a h2b h3 hw hr
      rw [Option.isSome_iff_exists] at hsome
      obtain ⟨yv, hyv⟩ := hsome
      simp [yearSearchAux, hyv]
    | c0 :: u2 =>
      simp only [List.cons_append] at heq
      injection heq with e0 heq1
      subst e0
      have hbare : BareIn (isWordChar c) cs := by
        refine ⟨u2, y, v, heq1, hy, ?_, hr⟩
        match u2, hl with
        | [], hl => simpa using hl
        | x :: u3, hl => simpa [List.getLast?_cons_cons] using hl
      have := ih hbare
      rw [Option.isSome_iff_exists] at this
      obtain ⟨t, ht⟩ := this
      by_cases hh : (yearHere w (c :: cs)).isSome
      · rw [Option.isSome_iff_exists] at hh
        obtain ⟨yv, hyv⟩ := hh
        simp [yearSearchAux, hyv]
      · rw [Option.not_isSome_iff_eq_none] at hh
        simp [yearSearchAux, hh, ht]

instance (w : Bool) (s : List Char) : Decidable (BareIn w s) :=
  decidable_of_iff ((yearSearchAux w s).isSome = true)
    ⟨fun h => yearSearchAux_sound h, fun h => yearSearchAux_complete h⟩

end AutoPost

namespace AutoPost

/-! ## Extension stripping: markers and bare years live in the stripped part -/

theorem append_three_way {α : Type} {A B u m v : List α} (h : A ++ B = u ++ m ++ v) :
    (∃ v1, A = u ++ m ++ v1 ∧ v = v1 ++ B) ∨
    (∃ u1, u = A ++ u1 ∧ B = u1 ++ m ++ v) ∨
    (∃ m1 m2, m = m1 ++ m2 ∧ m1 ≠ [] ∧ m2 ≠ [] ∧ A = u ++ m1 ∧ B = m2 ++ v) := by
  rw [List.append_assoc] at h
  rcases List.append_eq_append_iff.mp h with ⟨a1, hu, hB⟩ | ⟨c1, hA, hmv⟩
  · exact Or.inr (Or.inl ⟨a1, hu, by rw [hB, List.append_assoc]⟩)
  · rcases List.append_eq_append_iff.mp hmv with ⟨a2, hc1, hv⟩ | ⟨m2, hm, hB⟩
    · exact Or.inl ⟨a2, by rw [hA, hc1, List.append_assoc], hv⟩
    · by_cases hm2 : m2 = []
      · subst hm2
        refine Or.inl ⟨[], ?_, ?_⟩
        · rw [hA, hm]; simp
        · rw [hB]; simp
      · by_cases hc1 : c1 = []
        · subst hc1
          refine Or.inr (Or.inl ⟨[], by rw [hA]; simp, ?_⟩)
          rw [hB, hm]; simp
        · exact Or.inr (Or.inr ⟨c1, m2, hm, hc1, hm2, hA, hB⟩)

theorem stripExtension_spec (s : List Char) :
    ∃ tail, s = (stripExtension s).1 ++ tail ∧ (tail = [] ∨ lowerS tail ∈ extAlts) := by
  cases hf : extAlts.find? (fun e => e.isSuffixOf (lowerS s)) with
  | none =>
    have h1 : (stripExtension s).1 = s := by unfold stripExtension; rw [hf]
    exact ⟨[], by rw [h1]; simp, Or.inl rfl⟩
  | some e =>
    have h1 : (stripExtension s).1 = s.take (s.length - e.length) := by
      unfold stripExtension; rw [hf]
    have hmem : e ∈ extAlts := List.mem_of_find?_eq_some hf
    have hsuf : e.isSuffixOf (lowerS s) = true := by
      simpa using List.find?_some hf
    obtain ⟨p, hp⟩ := List.isSuffixOf_iff_suffix.mp hsuf
    have hlen : p.length + e.length = s.length := by
      have := congrArg List.length hp
      simpa [lowerS] using this
    refine ⟨s.drop (s.length - e.length), ?_, Or.inr ?_⟩
    · rw [h1]
      exact (List.take_append_drop _ s).symm
    · have hk : s.length - e.length = p.length := by omega
      have hdrop : lowerS (s.drop (s.length - e.length)) = e := by
        rw [hk]
        have hmapdrop : lowerS (s.drop p.length) = (lowerS s).drop p.length := by
          simp [lowerS, List.map_drop]
        rw [hmapdrop, ← hp, List.drop_left]
      rw [hdrop]
      exact hmem

theorem twoAdj_of_decomp {a b : Char} {u v l : List Char} (h : l = u ++ a :: b :: v) :
    twoAdj a b l = true := by
  subst h
  induction u with
  | nil => simp [twoAdj]
  | cons x xs ih =>
    cases hxs : xs ++ a :: b :: v with
    | nil => simp at hxs
    | cons y t =>
      have ih2 := ih
      rw [hxs] at ih2
      rw [List.cons_append, hxs]
      simp [twoAdj, ih2]

theorem markerShape_chars {m : List Char} (h : MarkerShape m) :
    (∀ c ∈ m, lowerC c ≠ '.') ∧ ∃ c ∈ m, lowerC c = 'e' := by
  obtain ⟨sc, ds, ec, es, hm, hsc, hec, _, _, hdd, _, _, hed⟩ := h
  subst hm
  constructor
  · intro c hc
    simp only [List.mem_cons, List.mem_append] at hc
    rcases hc with (h | h) | (h | h)
    · subst h
      rcases hsc with h | h <;> rw [h] <;> decide
    · exact digit_toNat_ne_dot (hdd c h)
    · subst h
      rcases hec with h | h <;> rw [h] <;> decide
    · exact digit_toNat_ne_dot (hed c h)
  · refine ⟨ec, by simp, ?_⟩
    rcases hec with h | h <;> rw [h] <;> decide

theorem yearShape_digits {y : List Char} (h : yearShape y) :
    ∀ c ∈ y, isDigitC c = true := by
  obtain ⟨c2, c3, hy, h2a, h2b, h3⟩ := h
  subst hy
  intro c hc
  simp only [List.mem_cons, List.not_mem_nil, or_false] at hc
  rcases hc with h | h | h | h
  · rw [h]; decide
  · rw [h]; decide
  · rw [h]; exact digit_of_c2_range h2a h2b
  · rw [h]; exact h3

theorem containsMarker_strip {s : List Char} (h : ContainsMarker s) :
    ContainsMarker (stripExtension s).1 := by
  obtain ⟨tail, hs, htail⟩ := stripExtension_spec s
  rcases htail with htail | hmem
  · subst htail
    have h1 : (stripExtension s).1 = s := by simpa using hs.symm
    rw [h1]
    exact h
  · obtain ⟨u, m, v, heq, hms⟩ := h
    rw [hs] at heq
    obtain ⟨hnd, ce, hcem, hce⟩ := And.intro (markerShape_chars hms).1
      (markerShape_chars hms).2
    rcases append_three_way heq with ⟨v1, hA, _⟩ | ⟨u1, _, hB⟩ |
      ⟨m1, m2, hm, _, hm2, _, hB⟩
    · exact ⟨u, m, v1, hA, hms⟩
    · exfalso
      have hmm : 'e' ∈ List.map lowerC m := by
        rw [← hce]
        exact List.mem_map_of_mem lowerC hcem
      have hemem : 'e' ∈ lowerS tail := by
        rw [hB]
        simp only [lowerS, List.map_append, List.mem_append]
        left; right
        exact hmm
      have hno : ∀ e ∈ extAlts, 'e' ∉ e := by decide
      exact hno _ hmem hemem
    · exfalso
      obtain ⟨c0, m2x, hm2eq⟩ := List.exists_cons_of_ne_nil hm2
      have hc0m : c0 ∈ m := by
        rw [hm, hm2eq]
        simp
      have hheadeq : (lowerS tail).head? = some (lowerC c0) := by
        rw [hB, hm2eq]
        simp [lowerS]
      have hdot : ∀ e ∈ extAlts, e.head? = some '.' := by decide
      have := hdot _ hmem
      rw [hheadeq] at this
      have : lowerC c0 = '.' := by simpa using this
      exact hnd c0 hc0m this

theorem containsMarker_of_strip {s : List Char} (h : ContainsMarker (stripExtension s).1) :
    ContainsMarker s := by
  obtain ⟨tail, hs, _⟩ := stripExtension_spec s
  obtain ⟨u, m, v, heq, hms⟩ := h
  refine ⟨u, m, v ++ tail, ?_, hms⟩
  rw [hs, heq]
  simp

theorem bareIn_strip {s : List Char} (h : BareIn false s) :
    BareIn false (stripExtension s).1 := by
  obtain ⟨tail, hs, htail⟩ := stripExtension_spec s
  rcases htail with htail | hmem
  · subst htail
    have h1 : (stripExtension s).1 = s := by simpa using hs.symm
    rw [h1]
    exact h
  · obtain ⟨u, y, v, heq, hy, hl, hr⟩ := h
    rw [hs] at heq
    have hyd := yearShape_digits hy
    rcases append_three_way heq with ⟨v1, hA, hv⟩ | ⟨u1, _, hB⟩ |
      ⟨m1, m2, hm, _, hm2, _, hB⟩
    · match v1 with
      | [] => exact ⟨u, y, [], hA, hy, hl, by simp [isWordOpt]⟩
      | x :: xs =>
        refine ⟨u, y, x :: xs, hA, hy, hl, ?_⟩
        rw [hv] at hr
        simpa using hr
    · exfalso
      obtain ⟨c2, c3, hy2, _, _, _⟩ := hy
      have h2c : lowerC '2' = '2' := by decide
      have h0c : lowerC '0' = '0' := by decide
      have hlow : List.map lowerC y = '2' :: '0' :: lowerC c2 :: lowerC c3 :: [] := by
        rw [hy2]
        simp [h2c, h0c]
      have hdecomp : lowerS tail = (List.map lowerC u1) ++
          '2' :: '0' :: (lowerC c2 :: lowerC c3 :: List.map lowerC v) := by
        rw [hB]
        simp only [lowerS, List.map_append, hlow]
        simp
      have htwo : twoAdj '2' '0' (lowerS tail) = true := twoAdj_of_decomp hdecomp
      have hno : ∀ e ∈ extAlts, twoAdj '2' '0' e = false := by decide
      rw [hno _ hmem] at htwo
      exact absurd htwo (by simp)
    · exfalso
      obtain ⟨c0, m2x, hm2eq⟩ := List.exists_cons_of_ne_nil hm2
      have hc0m : c0 ∈ y := by
        rw [hm, hm2eq]
        simp
      have hheadeq : (lowerS tail).head? = some (lowerC c0) := by
        rw [hB, hm2eq]
        simp [lowerS]
      have hdot : ∀ e ∈ extAlts, e.head? = some '.' := by decide
      have hx := hdot _ hmem
      rw [hheadeq] at hx
      have : lowerC c0 = '.' := by simpa using hx
      exact digit_toNat_ne_dot (hyd c0 hc0m) this

end AutoPost

namespace AutoPost

/-! ## Stable argmax: Python max(results, key=score) selects the first
maximal element -/

theorem maxByKeyFirst_spec (f : Candidate → ℚ) (x : Candidate) (xs : List Candidate) :
    ∃ pre post, x :: xs = pre ++ maxByKeyFirst f x xs :: post ∧
      (∀ z ∈ pre, f z < f (maxByKeyFirst f x xs)) ∧
      ∀ z ∈ x :: xs, f z ≤ f (maxByKeyFirst f x xs) := by
  induction xs generalizing x with
  | nil =>
    refine ⟨[], [], by simp [maxByKeyFirst], by simp, ?_⟩
    intro z hz
    simp only [List.mem_singleton] at hz
    simp [hz, maxByKeyFirst]
  | cons y ys ih =>
    by_cases hgt : f y > f x
    · obtain ⟨pre, post, heq, hpre, hmax⟩ := ih y
      have hb : maxByKeyFirst f x (y :: ys) = maxByKeyFirst f y ys := by
        simp [maxByKeyFirst, hgt]
      have hxlt : f x < f (maxByKeyFirst f y ys) :=
        lt_of_lt_of_le hgt (hmax y (by simp))
      refine ⟨x :: pre, post, ?_, ?_, ?_⟩
      · rw [hb, List.cons_append, ← heq]
      · intro z hz
        rcases List.mem_cons.mp hz with h | h
        · rw [h, hb]
          exact hxlt
        · rw [hb]
          exact hpre z h
      · intro z hz
        rcases List.mem_cons.mp hz with h | h
        · rw [h, hb]
          exact le_of_lt hxlt
        · rw [hb]
          exact hmax z h
    · obtain ⟨pre, post, heq, hpre, hmax⟩ := ih x
      have hyle : f y ≤ f x := le_of_not_lt hgt
      have hb : maxByKeyFirst f x (y :: ys) = maxByKeyFirst f x ys := by
        simp [maxByKeyFirst, hgt]
      have hxle : f x ≤ f (maxByKeyFirst f x ys) := hmax x (by simp)
      cases pre with
      | nil =>
        simp only [List.nil_append] at heq
        injection heq with h1 h2
        refine ⟨[], y :: post, ?_, by simp, ?_⟩
        · rw [hb, ← h1, h2]
          simp
        · intro z hz
          rcases List.mem_cons.mp hz with h | h
          · rw [h, hb]
            exact hxle
          · rcases List.mem_cons.mp h with h | h
            · rw [h, hb, ← h1]
              exact hyle
            · rw [hb]
              exact hmax z (List.mem_cons_of_mem x h)
      | cons p pre2 =>
        simp only [List.cons_append] at heq
        injection heq with h1 h2
        have hxlt : f x < f (maxByKeyFirst f x ys) :=
          hpre x (by rw [h1]; exact List.mem_cons_self p pre2)
        refine ⟨x :: y :: pre2, post, ?_, ?_, ?_⟩
        · rw [hb, List.cons_append, List.cons_append, ← h2]
        · intro z hz
          rcases List.mem_cons.mp hz with h | h
          · rw [h, hb]
            exact hxlt
          · rcases List.mem_cons.mp h with h | h
            · rw [h, hb]
              exact lt_of_le_of_lt hyle hxlt
            · rw [hb]
              exact hpre z (List.mem_cons_of_mem p h)
        · intro z hz
          rcases List.mem_cons.mp hz with h | h
          · rw [h, hb]
            exact hxle
          · rcases List.mem_cons.mp h with h | h
            · rw [h, hb]
              exact le_trans hyle hxle
            · rw [hb]
              exact hmax z (List.mem_cons_of_mem x h)

theorem maxByKeyFirst_mem (f : Candidate → ℚ) (x : Candidate) (xs : List Candidate) :
    maxByKeyFirst f x xs ∈ x :: xs := by
  obtain ⟨pre, post, heq, _, _⟩ := maxByKeyFirst_spec f x xs
  rw [heq]
  simp

/-! ## find? on a strictly descending list returns the largest satisfying
element -/

theorem find?_first_desc {l : List Nat} {p : Nat → Bool} {a : Nat}
    (hs : l.Pairwise (fun x y => y < x)) (h : l.find? p = some a) :
    ∀ b ∈ l, p b = true → b ≤ a := by
  induction l with
  | nil => simp at h
  | cons x t ih =>
    rw [List.pairwise_cons] at hs
    by_cases hp : p x = true
    · rw [List.find?_cons_of_pos _ hp] at h
      injection h with h1
      subst h1
      intro b hb hpb
      rcases List.mem_cons.mp hb with hh | hh
      · rw [hh]
      · exact le_of_lt (hs.1 b hh)
    · rw [List.find?_cons_of_neg _ (by simpa using hp)] at h
      intro b hb hpb
      rcases List.mem_cons.mp hb with hh | hh
      · rw [hh] at hpb
        exact absurd hpb hp
      · exact ih hs.2 h b hh hpb

/-! ## _enrich cannot raise when makedirs succeeds and the date parses -/

theorem download_poster_ok {env : DownloadEnv} (hmk : env.mkdirOk = true)
    (url : String) (id : Int) :
    ∃ p, download_poster env url id = Except.ok p := by
  unfold download_poster
  rw [if_pos hmk]
  by_cases hc : env.cached = true
  · exact ⟨_, by rw [if_pos hc]⟩
  · by_cases hf : env.fetchOk = true
    · exact ⟨_, by rw [if_neg hc, if_pos hf]⟩
    · exact ⟨_, by rw [if_neg hc, if_neg hf]⟩

theorem enrich_ok {item : Candidate} {mt : String} {env : DownloadEnv}
    (hmk : env.mkdirOk = true) (h : dateOk item) :
    ∃ e, enrich item mt env = Except.ok e := by
  unfold enrich
  obtain ⟨lp, hlp⟩ : ∃ lp, (match posterRemote item with
      | some p => download_poster env (TMDB_IMAGE_BASE ++ p) (item.id.getD 0)
      | none => Except.ok none) = Except.ok lp := by
    cases posterRemote item with
    | none => exact ⟨none, rfl⟩
    | some p => exact download_poster_ok hmk (TMDB_IMAGE_BASE ++ p) (item.id.getD 0)
  rw [hlp]
  rcases h with h | h
  · simp [h]
  · rw [Option.isSome_iff_exists] at h
    obtain ⟨n, hn⟩ := h
    by_cases hrd : relDate item = ""
    · simp [hrd]
    · simp [hrd, hn]

/-! ## Nonemptiness of the star fragment -/

theorem star_append_ne_empty (s : String) : ("★ " ++ s) ≠ "" := by
  intro h
  have h2 : ("★ " ++ s).data = "".data := congrArg String.data h
  rw [show ("★ " ++ s).data = "★ ".data ++ s.data from rfl] at h2
  simp at h2

end AutoPost

namespace AutoPost

/-! # Claim theorems -/

/-- C1 counterexample: stripping can remove all text, in which case the
title is the empty string; there is no fallback to the trimmed raw
filename.  For "2025.mkv" the extension is stripped, the year match
truncates the title span to nothing, and the cleaned title is "". -/
theorem c1_counterexample :
    (parse "2025.mkv").title = "" ∧ (parse "2025.mkv").year = some 2025 := by
  constructor <;> decide

/-- C1 (amended): parse is total and always returns the raw filename in
the record, but the cleaned title may be empty when truncation and
stripping remove all text — no fallback to the raw name exists. -/
theorem c1_amended :
    (∀ f : String, (parse f).raw_filename = f) ∧
    ∃ f : String, (parse f).title = "" := by
  refine ⟨fun f => rfl, "2025.mkv", ?_⟩
  decide

/-- C2 counterexample: search is not exception-free.  The try/except in
search only wraps the HTTP request and JSON parsing; _enrich and
_download_poster run outside it.  First conjunct: int(release_date[:4])
raises for a candidate whose release-date string is "soon", even though
every filesystem step succeeds.  Second conjunct: for a candidate with
artwork and a perfectly parseable date, the os.makedirs call of
_download_poster sits before that function's try/except, so its OSError
propagates out of search. -/
theorem c2_counterexample :
    search "X" none "movie" (SearchResponse.ok [badDateCand]) okEnv =
      Except.error "ValueError: invalid literal for int()" ∧
    search "X" none "movie" (SearchResponse.ok [posterCand]) badEnv =
      Except.error "OSError: cannot create output directory" := by
  constructor
  · norm_num +decide [search, maxByKeyFirst, enrich, badDateCand, okEnv, relDate,
      orStr, posterRemote, download_poster, pyInt, digitsVal, isDigitC, Except.map]
  · norm_num +decide [search, maxByKeyFirst, enrich, posterCand, badEnv, relDate,
      orStr, posterRemote, download_poster, pyInt, digitsVal, isDigitC, Except.map]

/-- C2 (amended): search returns the no-match marker, without raising, on
a failed request and on an empty result list; and it cannot raise as long
as the creation of the poster output directory succeeds and every
candidate's effective release-date string is empty or has an
integer-parseable four-character head.  Both provisos are necessary:
_enrich and _download_poster run outside the try/except of search, and
both int(release_date[:4]) and the os.makedirs call placed before
_download_poster's own try/except can raise there (see the
counterexample). -/
theorem c2_amended (title : String) (year : Option Int) (mt : String)
    (env : DownloadEnv) :
    search title year mt SearchResponse.netFail env = Except.ok none ∧
    search title year mt (SearchResponse.ok []) env = Except.ok none ∧
    ∀ results : List Candidate, env.mkdirOk = true → (∀ c ∈ results, dateOk c) →
      ∃ v, search title year mt (SearchResponse.ok results) env = Except.ok v := by
  refine ⟨rfl, rfl, fun results hmk hok => ?_⟩
  cases results with
  | nil => exact ⟨none, rfl⟩
  | cons x xs =>
    obtain ⟨e, he⟩ := @enrich_ok (maxByKeyFirst (score (strLower title) year) x xs)
      mt env hmk (hok _ (maxByKeyFirst_mem (score (strLower title) year) x xs))
    refine ⟨some e, ?_⟩
    simp [search, he, Except.map]

/-- C2 witness: the amended theorem applied to a failed request and to a
concrete well-dated candidate list in an environment where the directory
creation succeeds. -/
theorem c2_witness :
    search "Leo" (some 2023) "movie" SearchResponse.netFail okEnv = Except.ok none ∧
    ∃ v, search "Leo" (some 2023) "movie" (SearchResponse.ok [leo1, leo2]) okEnv =
      Except.ok v :=
  ⟨(c2_amended "Leo" (some 2023) "movie" okEnv).1,
   (c2_amended "Leo" (some 2023) "movie" okEnv).2.2 [leo1, leo2] rfl
     (by norm_num +decide [dateOk, leo1, leo2, relDate, orStr, pyInt, digitsVal,
       isDigitC, digitVal])⟩

/-- C3: _pick_best scores candidates exactly as specified (+10 exact
case-insensitive title match, else +5 mutual substring, +3 year prefix of
the release date, plus popularity/1000) and selects the first candidate in
result order attaining the maximal score: the list splits at the chosen
candidate with all earlier candidates scoring strictly less and all
candidates scoring at most the chosen one. -/
theorem c3_pick_best (title : String) (year : Option Int)
    (results : List Candidate) (x : Candidate) (xs : List Candidate)
    (h : results = x :: xs) :
    ∃ best pre post, pickBest results title year = some best ∧
      results = pre ++ best :: post ∧
      (∀ z ∈ pre, score (strLower title) year z < score (strLower title) year best) ∧
      ∀ z ∈ results, score (strLower title) year z ≤ score (strLower title) year best := by
  subst h
  obtain ⟨pre, post, heq, hpre, hmax⟩ :=
    maxByKeyFirst_spec (score (strLower title) year) x xs
  exact ⟨_, pre, post, rfl, heq, hpre, hmax⟩

/-- C3 witness: the spec's example — candidates Leo (popularity 10) and
Leo 2 (popularity 500), both dated 2023, query "Leo"/2023 — selects the
first; the scores are 13.01 and 8.5. -/
theorem c3_witness :
    (∃ best pre post, pickBest [leo1, leo2] "Leo" (some 2023) = some best ∧
      [leo1, leo2] = pre ++ best :: post ∧
      (∀ z ∈ pre, score (strLower "Leo") (some 2023) z <
        score (strLower "Leo") (some 2023) best) ∧
      ∀ z ∈ [leo1, leo2], score (strLower "Leo") (some 2023) z ≤
        score (strLower "Leo") (some 2023) best) ∧
    pickBest [leo1, leo2] "Leo" (some 2023) = some leo1 ∧
    score (strLower "Leo") (some 2023) leo1 = 1301/100 ∧
    score (strLower "Leo") (some 2023) leo2 = 17/2 := by
  refine ⟨c3_pick_best "Leo" (some 2023) [leo1, leo2] leo1 [leo2] rfl, ?_, ?_, ?_⟩ <;>
    norm_num +decide [pickBest, maxByKeyFirst, score, leo1, leo2, strLower, lowerS,
      lowerC, orStr, relDate, yearTruthy, containsList, startsList]

/-- C4: create_poster never propagates an exception: it always returns
either the path composed by the try block or, whenever any step of the
composition fails, the fixed fallback asset path. -/
theorem c4_create_poster (meta : MediaMeta) (tmdb : Option Enriched)
    (fs : String → FileState) (saveOk : Bool) :
    ((∃ p, composePoster meta tmdb fs saveOk = Except.ok p ∧
       create_poster meta tmdb fs saveOk = p) ∨
     create_poster meta tmdb fs saveOk = FALLBACK_POSTER) ∧
    ∀ e, composePoster meta tmdb fs saveOk = Except.error e →
      create_poster meta tmdb fs saveOk = FALLBACK_POSTER := by
  constructor
  · cases h : composePoster meta tmdb fs saveOk with
    | ok p => exact Or.inl ⟨p, rfl, by simp [create_poster, h]⟩
    | error e => exact Or.inr (by simp [create_poster, h])
  · intro e he
    simp [create_poster, he]

/-- C4 witness: an unreadable artwork path makes the composition raise
and create_poster returns the fallback asset. -/
theorem c4_witness :
    create_poster (parse "Movie.2024.HDRip.mkv")
      (some { local_poster_path := some "x" })
      (fun _ => FileState.unreadable) true = "assets/fallback.jpg" :=
  (c4_create_poster (parse "Movie.2024.HDRip.mkv")
      (some { local_poster_path := some "x" })
      (fun _ => FileState.unreadable) true).2
    "IOError: cannot open image" (by rfl)

/-- C7: the background rescale of _open_and_resize produces width exactly
1080 and height the aspect-preserving int(h*1080/w), except that the
height is raised to the minimum 1600 when the aspect-preserving height
falls short. -/
theorem c7_resize (w h : Nat) (hw : 0 < w) :
    (resizeDims w h).1 = 1080 ∧
    (resizeDims w h).2 = max (h * 1080 / w) 1600 ∧
    (1600 ≤ h * 1080 / w → (resizeDims w h).2 = h * 1080 / w) ∧
    (h * 1080 / w < 1600 → (resizeDims w h).2 = 1600) := by
  refine ⟨rfl, rfl, fun hle => ?_, fun hlt => ?_⟩
  · show max (h * 1080 / w) 1600 = h * 1080 / w
    exact Nat.max_eq_left hle
  · show max (h * 1080 / w) 1600 = 1600
    exact Nat.max_eq_right (Nat.le_of_lt hlt)

/-- C7 witness: a 2000 by 3000 source maps to 1080 by 1620 (aspect kept);
the theorem instantiated at that size. -/
theorem c7_witness :
    0 < 2000 ∧
    ((resizeDims 2000 3000).1 = 1080 ∧
     (resizeDims 2000 3000).2 = max (3000 * 1080 / 2000) 1600 ∧
     (1600 ≤ 3000 * 1080 / 2000 → (resizeDims 2000 3000).2 = 3000 * 1080 / 2000) ∧
     (3000 * 1080 / 2000 < 1600 → (resizeDims 2000 3000).2 = 1600)) ∧
    (resizeDims 2000 3000).2 = 1620 :=
  ⟨by decide, c7_resize 2000 3000 (by decide), by decide⟩

/-- C8: _fit_font tries the descending sizes 80, 78, ..., 40; it returns
the first (hence largest) candidate whose measured width fits within the
budget, and the minimum size 40 when none fits. -/
theorem c8_fit_font (measure : String → Nat → Nat) (text : String) (maxWidth : Nat) :
    ((∀ s ∈ fontSizes, ¬ measure text s ≤ maxWidth) →
      fitFont measure text maxWidth = 40) ∧
    ((∃ s ∈ fontSizes, measure text s ≤ maxWidth) →
      fitFont measure text maxWidth ∈ fontSizes ∧
      measure text (fitFont measure text maxWidth) ≤ maxWidth ∧
      ∀ s ∈ fontSizes, measure text s ≤ maxWidth →
        s ≤ fitFont measure text maxWidth) := by
  constructor
  · intro hall
    have hnone : fontSizes.find? (fun size => measure text size ≤ maxWidth) = none := by
      rw [List.find?_eq_none]
      intro a ha
      simpa using hall a ha
    unfold fitFont
    rw [hnone]
    rfl
  · intro hex
    obtain ⟨s0, hs0, hfit⟩ := hex
    cases hfind : fontSizes.find? (fun size => measure text size ≤ maxWidth) with
    | none =>
      rw [List.find?_eq_none] at hfind
      exact absurd (by simpa using hfit) (by simpa using hfind s0 hs0)
    | some a =>
      have hmem := List.mem_of_find?_eq_some hfind
      have hpa : measure text a ≤ maxWidth := by simpa using List.find?_some hfind
      have hsorted : fontSizes.Pairwise (fun x y => y < x) := by decide
      have hfirst := find?_first_desc hsorted hfind
      have hval : fitFont measure text maxWidth = a := by
        unfold fitFont
        rw [hfind]
      rw [hval]
      exact ⟨hmem, hpa, fun s hs hps => hfirst s hs (by simpa using hps)⟩

/-- C8 witness: with glyph width = 5 characters times the size, budget
1000, the largest size 80 already fits and is chosen. -/
theorem c8_witness :
    (∃ s ∈ fontSizes, (fun (t : String) (k : Nat) => t.length * k) "Hello" s ≤ 1000) ∧
    (fitFont (fun t k => t.length * k) "Hello" 1000 ∈ fontSizes ∧
     (fun (t : String) (k : Nat) => t.length * k) "Hello"
       (fitFont (fun t k => t.length * k) "Hello" 1000) ≤ 1000 ∧
     ∀ s ∈ fontSizes, (fun (t : String) (k : Nat) => t.length * k) "Hello" s ≤ 1000 →
       s ≤ fitFont (fun t k => t.length * k) "Hello" 1000) ∧
    fitFont (fun t k => t.length * k) "Hello" 1000 = 80 :=
  ⟨⟨80, by decide, by decide⟩,
   (c8_fit_font (fun t k => t.length * k) "Hello" 1000).2 ⟨80, by decide, by decide⟩,
   by decide⟩

/-- C9: the meta dict passed to the renderer is MediaMeta.to_dict(),
which has no "display_quality" key, so the renderer's lookup chain
meta.get("display_quality") or meta.get("quality", "") always reduces to
the bare quality tag and the rip/source tag never reaches the metadata
line.  For a parse with quality absent and rip_type "HDRip", the intended
display quality is "HDRip" but the rendered line is only the year. -/
theorem c9_display_quality_bug :
    (parse "Movie.2024.HDRip.mkv").quality = "" ∧
    (parse "Movie.2024.HDRip.mkv").rip_type = "HDRip" ∧
    MediaMeta.display_quality (parse "Movie.2024.HDRip.mkv") = "HDRip" ∧
    metaParts (parse "Movie.2024.HDRip.mkv") none = ["2024"] ∧
    metaLine (parse "Movie.2024.HDRip.mkv") none = "2024" := by
  refine ⟨?_, ?_, ?_, ?_, ?_⟩ <;> decide

/-- C10: the star-rating fragment of the metadata line is empty precisely
when the enrichment is the no-match marker or its vote_average is 0; a
nonzero rating puts the star fragment in the parts list, and a zero or
absent rating leaves the parts list at just year and quality. -/
theorem c10_star_rating (meta : MediaMeta) (tmdb : Option Enriched) :
    (starText tmdb = "" ↔ tmdb = none ∨ ∃ e, tmdb = some e ∧ e.vote_average = 0) ∧
    (starText tmdb ≠ "" → starText tmdb ∈ metaParts meta tmdb) ∧
    (starText tmdb = "" → metaParts meta tmdb =
      (match yearPart meta tmdb with
       | some y => [toString y]
       | none => []) ++ (if meta.quality ≠ "" then [meta.quality] else [])) := by
  refine ⟨?_, ?_, ?_⟩
  · cases tmdb with
    | none => simp [starText]
    | some e =>
      by_cases h : e.vote_average = 0
      · simp [starText, h]
      · have hne := star_append_ne_empty (toString e.vote_average)
        simp only [starText, if_neg h]
        constructor
        · intro habs
          exact absurd habs hne
        · rintro (habs | ⟨e2, he2, hv⟩)
          · simp at habs
          · simp only [Option.some.injEq] at he2
            subst he2
            exact absurd hv h
  · intro hne
    simp [metaParts, hne]
  · intro he
    simp [metaParts, he]

/-- C10 witness: a 7.5 rating yields a nonempty star fragment placed in
the parts list; the no-match marker yields the year-only parts list. -/
theorem c10_witness :
    starText (some ({ vote_average := 15/2 } : Enriched)) ≠ "" ∧
    starText (some ({ vote_average := 15/2 } : Enriched)) ∈
      metaParts (parse "Movie.2024.HDRip.mkv")
        (some ({ vote_average := 15/2 } : Enriched)) ∧
    metaParts (parse "Movie.2024.HDRip.mkv") none = ["2024"] :=
  ⟨by norm_num [starText, star_append_ne_empty],
   (c10_star_rating (parse "Movie.2024.HDRip.mkv")
     (some ({ vote_average := 15/2 } : Enriched))).2.1
     (by norm_num [starText, star_append_ne_empty]),
   by decide⟩

end AutoPost

namespace AutoPost

/-- C6: any filename containing an SxxEyy-style marker (1-2 digit season
and episode, case-insensitive) parses as a series, with season and
episode equal to the integers parsed from the leftmost marker found on
the extension-stripped name, regardless of the surrounding text. -/
theorem c6_series_marker (f : String) (h : ContainsMarker f.data) :
    (parse f).media_type = "series" ∧
    ∃ i se ep, seriesSearch (stripExtension f.data).1 = some (i, se, ep) ∧
      (parse f).season = some se ∧ (parse f).episode = some ep := by
  have h1 : ContainsMarker (stripExtension f.data).1 := containsMarker_strip h
  have h2 := seriesSearch_complete h1
  rw [Option.isSome_iff_exists] at h2
  obtain ⟨⟨i, se, ep⟩, ht⟩ := h2
  refine ⟨?_, i, se, ep, ht, ?_, ?_⟩ <;> simp [parse, ht]

/-- C6 witness: the spec's series example parses to series S02E06 through
the theorem, with the concrete values checked by evaluation. -/
theorem c6_witness :
    ContainsMarker ("Beast.Games.S02E06.720p.WEB-DL.mkv").data ∧
    (parse "Beast.Games.S02E06.720p.WEB-DL.mkv").media_type = "series" ∧
    (parse "Beast.Games.S02E06.720p.WEB-DL.mkv").season = some 2 ∧
    (parse "Beast.Games.S02E06.720p.WEB-DL.mkv").episode = some 6 :=
  ⟨by decide, (c6_series_marker "Beast.Games.S02E06.720p.WEB-DL.mkv" (by decide)).1,
   by decide, by decide⟩

/-- C5 counterexample: "X2020.2021.mkv" contains the bare year 2021 and
no series marker, so the hypothesis of the claim holds and year/media
type are as claimed, yet the parsed title "X2020" still contains a
four-digit year substring: 2020 is not word-boundary delimited in the
source name, survives the truncation at the bare 2021, and the cleanup
only removes bare years. -/
theorem c5_counterexample :
    BareIn false ("X2020.2021.mkv").data ∧
    ¬ ContainsMarker ("X2020.2021.mkv").data ∧
    (parse "X2020.2021.mkv").media_type = "movie" ∧
    (parse "X2020.2021.mkv").year = some 2021 ∧
    (parse "X2020.2021.mkv").title = "X2020" ∧
    hasYearLike (parse "X2020.2021.mkv").title.data = true := by
  exact ⟨by decide, by decide, by decide, by decide, by decide, by decide⟩

/-- C5 (amended): for a filename containing a bare (word-boundary
delimited) year 2000 to 2029 and no series marker, parse returns
media_type "movie", the year value of the leftmost bare year match on the
extension-stripped name, and a title computed by the cleanup chain from
exactly the name segment before that match — hence the matched year
occurrence itself never reaches the title, though other year-like digit
runs can (see the counterexample). -/
theorem c5_amended (f : String) (hy : BareIn false f.data)
    (hm : ¬ ContainsMarker f.data) :
    ∃ i y, yearSearch (stripExtension f.data).1 = some (i, y) ∧
      (parse f).media_type = "movie" ∧
      (parse f).year = some y ∧
      (parse f).title = String.mk (cleanTitle ((stripExtension f.data).1.take i)) := by
  have hs : seriesSearch (stripExtension f.data).1 = none := by
    cases hcase : seriesSearch (stripExtension f.data).1 with
    | none => rfl
    | some t =>
      exact absurd (containsMarker_of_strip (seriesSearch_sound (by rw [hcase]; rfl))) hm
  have hb : BareIn false (stripExtension f.data).1 := bareIn_strip hy
  have h2 : (yearSearch (stripExtension f.data).1).isSome := yearSearchAux_complete hb
  rw [Option.isSome_iff_exists] at h2
  obtain ⟨⟨i, y⟩, ht⟩ := h2
  refine ⟨i, y, ht, ?_, ?_, ?_⟩ <;> simp [parse, hs, ht]

/-- C5 witness: the spec's movie example satisfies the hypotheses; the
theorem applies, and the concrete year and title are checked by
evaluation. -/
theorem c5_witness :
    BareIn false ("Rajadrohi.2025.1080p.HDRip.mkv").data ∧
    (¬ ContainsMarker ("Rajadrohi.2025.1080p.HDRip.mkv").data) ∧
    (∃ i y, yearSearch (stripExtension ("Rajadrohi.2025.1080p.HDRip.mkv").data).1 =
        some (i, y) ∧
      (parse "Rajadrohi.2025.1080p.HDRip.mkv").media_type = "movie" ∧
      (parse "Rajadrohi.2025.1080p.HDRip.mkv").year = some y ∧
      (parse "Rajadrohi.2025.1080p.HDRip.mkv").title =
        String.mk (cleanTitle
          ((stripExtension ("Rajadrohi.2025.1080p.HDRip.mkv").data).1.take i))) ∧
    (parse "Rajadrohi.2025.1080p.HDRip.mkv").year = some 2025 ∧
    (parse "Rajadrohi.2025.1080p.HDRip.mkv").title = "Rajadrohi" :=
  ⟨by decide, by decide,
   c5_amended "Rajadrohi.2025.1080p.HDRip.mkv" (by decide) (by decide),
   by decide, by decide⟩

end AutoPost
